import Mathlib

/-!
Shallow embedding of the netatmoapi schedule-resolution core
(`src/netatmoapi/object/_common.py` and `src/netatmoapi/object/_data.py`).

Layer 1 models the typed JSON node layer (`Object._assign`,
`SequenceObject`, `MappingObject`, the typed getters).  Layer 2 models the
datetime/timezone machinery (`_dt_localize`, `_dt_add_days`, pytz
`DstTzInfo.localize`/`fromutc` as the library the code calls into) and the
timetable resolution engine (`Timepoint.get_datetime`,
`Timetable.get_week`, `Timetable.get_period`, `Schedule.get_period`).

Datetimes are modelled as whole minutes (`Int`) since 0001-01-01 00:00,
which in the proleptic Gregorian calendar used by Python's `datetime` is a
Monday, so `weekday = day % 7` with Monday = 0, exactly as in Python.
-/

namespace Netatmo

/-- Errors raised by the modelled code.  `valueError` and `indexError` and
`pyTypeError` are the Python builtins; the `object*` constructors are the
library's own `ObjectError` hierarchy from `_common.py`. -/
inductive Err where
  | valueError
  | indexError
  | pyTypeError
  | objectAttributeError
  | objectTypeError
  | objectDataError
  | objectIdError
  | objectError
  deriving Repr, DecidableEq

/-! ## Layer 1: typed JSON node layer (`_common.py`) -/

/-- An arbitrary decoded Python value handed to `Object._assign`.
`other` stands for any Python object that is none of the shapes the code
inspects (for example a set or a custom object). -/
inductive PyVal where
  | none
  | pybool (b : Bool)
  | pyint (n : Int)
  | pyfloat (q : Rat)
  | pystr (s : String)
  | pylist (l : List PyVal)
  | pydict (d : List (String × PyVal))
  | other (tag : String)

/-- A node of the validated tree built by `SequenceObject`/`MappingObject`
construction: JSON scalars, lists and maps. -/
inductive Node where
  | null
  | bool (b : Bool)
  | int (n : Int)
  | float (q : Rat)
  | str (s : String)
  | seq (l : List Node)
  | map (m : List (String × Node))

/-- Python `isinstance(v, bool)`. -/
def PyVal.isinstBool : PyVal → Bool
  | .pybool _ => true
  | _ => false

/-- Python `isinstance(v, int)`: `bool` is a subclass of `int`, so booleans
also satisfy this check. -/
def PyVal.isinstInt : PyVal → Bool
  | .pybool _ => true
  | .pyint _ => true
  | _ => false

/-- Python `isinstance(v, float)`. -/
def PyVal.isinstFloat : PyVal → Bool
  | .pyfloat _ => true
  | _ => false

/-- Python `isinstance(v, str)`. -/
def PyVal.isinstStr : PyVal → Bool
  | .pystr _ => true
  | _ => false

/-- Python `bool(v)` restricted to the values on which `_assign` applies it
(those passing `isinstance(v, bool)`). -/
def PyVal.castBool : PyVal → Bool
  | .pybool b => b
  | _ => false

/-- Python `int(v)` restricted to the values passing `isinstance(v, int)`:
for a `bool` this yields 0 or 1, which is how a misordered dispatch would
misclassify booleans. -/
def PyVal.castInt : PyVal → Int
  | .pybool b => if b then 1 else 0
  | .pyint n => n
  | _ => 0

/-- Python `float(v)` restricted to values passing `isinstance(v, float)`. -/
def PyVal.castFloat : PyVal → Rat
  | .pyfloat q => q
  | _ => 0

/-- Python `str(v)` restricted to values passing `isinstance(v, str)`. -/
def PyVal.castStr : PyVal → String
  | .pystr s => s
  | _ => ""

/-- Python `isinstance(v, collections.abc.Sequence)` on the remaining
values (`str` has already been consumed by the scalar dispatch). -/
def PyVal.isinstSeq : PyVal → Bool
  | .pylist _ => true
  | _ => false

/-- Python `isinstance(v, collections.abc.Mapping)`. -/
def PyVal.isinstMap : PyVal → Bool
  | .pydict _ => true
  | _ => false

mutual
/-- `Object._assign` (`_common.py` lines 18-32) composed with the
recursive `SequenceObject.__init__`/`MappingObject.__init__`
construction: classify a decoded value into a `Node`.  The scalar
dispatch tries `bool`, `int`, `float`, `str` in exactly the source
order.  A value of no representable shape reaches
`raise ObjectDataError(self, item)`; `ObjectDataError.__init__`
(`_common.py` lines 165-169) accepts no arguments besides `self` and
refers to undefined names, so that `raise` statement itself fails with a
builtin `TypeError` before any `ObjectDataError` exists. -/
def assignNode : PyVal → Except Err Node
  | .none => .ok .null
  | v =>
    if v.isinstBool then .ok (.bool v.castBool)
    else if v.isinstInt then .ok (.int v.castInt)
    else if v.isinstFloat then .ok (.float v.castFloat)
    else if v.isinstStr then .ok (.str v.castStr)
    else
      match v with
      | .pylist l => do .ok (.seq (← assignList l))
      | .pydict d => do .ok (.map (← assignPairs d))
      | _ => .error .pyTypeError

/-- `SequenceObject.__init__`: assign every item in order. -/
def assignList : List PyVal → Except Err (List Node)
  | [] => .ok []
  | v :: vs => do .ok ((← assignNode v) :: (← assignList vs))

/-- `MappingObject.__init__`: assign every value in order, keeping keys. -/
def assignPairs : List (String × PyVal) → Except Err (List (String × Node))
  | [] => .ok []
  | (k, v) :: vs => do .ok ((k, (← assignNode v)) :: (← assignPairs vs))
end

/-- The requested scalar kind of a typed getter (`str`, `int` or `bool`
in `_get_str`/`_get_int`/`_get_bool`). -/
inductive TypeKind where
  | str
  | int
  | bool
  deriving Repr, DecidableEq

/-- Python `isinstance(node, kind)` for the stored node values: a stored
boolean also satisfies `isinstance(·, int)` because `bool` subclasses
`int`. -/
def Node.isinst : Node → TypeKind → Bool
  | .str _, .str => true
  | .int _, .int => true
  | .bool _, .int => true
  | .bool _, .bool => true
  | _, _ => false

/-- A map-shaped node: the `_mapping` dict of a `MappingObject`. -/
abbrev MappingObject := List (String × Node)

/-- `MappingObject.__getitem__`: `self._mapping[key]`, `KeyError` when the
key is absent (modelled as `Option`). -/
def MappingObject.getitem (m : MappingObject) (key : String) : Option Node :=
  m.lookup key

/-- `MappingObject._get_type` (`_common.py` lines 85-92): absent key gives
`ObjectAttributeError` (the `except KeyError` branch), a present value of
the wrong runtime type gives `ObjectTypeError`. -/
def MappingObject.get_type (m : MappingObject) (key : String) (kind : TypeKind) :
    Except Err Node :=
  match m.getitem key with
  | Option.none => .error .objectAttributeError
  | some value =>
      if value.isinst kind then .ok value else .error .objectTypeError

/-- `MappingObject._get_str`. -/
def MappingObject.get_str (m : MappingObject) (key : String) : Except Err Node :=
  m.get_type key .str

/-- `MappingObject._get_int`. -/
def MappingObject.get_int (m : MappingObject) (key : String) : Except Err Node :=
  m.get_type key .int

/-- `MappingObject.get_bool`. -/
def MappingObject.get_bool (m : MappingObject) (key : String) : Except Err Node :=
  m.get_type key .bool

/-- `HomeData.name` (`_data.py` lines 65-68): declared `Optional[str]` but
implemented as a bare `self._get_str("name")`. -/
def HomeData.name (m : MappingObject) : Except Err Node :=
  m.get_str "name"

/-- `ModuleData.room_id` (`_data.py` lines 169-172): declared
`Optional[int]` but implemented as a bare `self._get_int("room_id")`. -/
def ModuleData.room_id (m : MappingObject) : Except Err Node :=
  m.get_int "room_id"

mutual
/-- A decoded value is representable when it is built only from null,
booleans, ints, floats, strings, sequences and mappings (no `other`
subterm). -/
def PyVal.representable : PyVal → Bool
  | .none => true
  | .pybool _ => true
  | .pyint _ => true
  | .pyfloat _ => true
  | .pystr _ => true
  | .pylist l => PyVal.representableList l
  | .pydict d => PyVal.representablePairs d
  | .other _ => false

/-- Representability of every element of a list. -/
def PyVal.representableList : List PyVal → Bool
  | [] => true
  | v :: vs => PyVal.representable v && PyVal.representableList vs

/-- Representability of every value of an association list. -/
def PyVal.representablePairs : List (String × PyVal) → Bool
  | [] => true
  | (_, v) :: vs => PyVal.representable v && PyVal.representablePairs vs
end

/-! ## Layer 2: datetimes, timezones and the resolution engine (`_data.py`) -/

/-- One `(utcoffset, is_dst)` record of a pytz zone (an entry of its
`_transition_info`); the offset is in whole minutes. -/
structure ZoneInfo where
  offset : Int
  isDst : Bool
  deriving Repr, DecidableEq

/-- A pytz `DstTzInfo` zone: the info in force before the first transition,
and the transition list as (utc instant, info) pairs ascending by instant. -/
structure DstZone where
  base : ZoneInfo
  transitions : List (Int × ZoneInfo)
  deriving Repr, DecidableEq

/-- Transition lookup, pytz's `idx = max(0, bisect_right(times, t) - 1)`:
the info of the last transition at or before `t`, or the base info when
`t` precedes every transition. -/
def DstZone.infoAt (z : DstZone) (t : Int) : ZoneInfo :=
  go z.base z.transitions
where
  go : ZoneInfo → List (Int × ZoneInfo) → ZoneInfo
  | acc, [] => acc
  | acc, (time2, info) :: rest => if time2 ≤ t then go info rest else acc

/-- A `tzinfo` value as the code distinguishes them: `_dt_localize` treats
pytz `DstTzInfo` zones specially and attaches any other tzinfo (such as a
fixed-offset `datetime.timezone`) verbatim. -/
inductive Tz where
  | fixed (offset : Int)
  | dst (z : DstZone)
  deriving Repr, DecidableEq

/-- An aware Python datetime: its naive wall-clock in minutes, the
utcoffset of its tzinfo, and the zone the tzinfo belongs to. -/
structure Aware where
  wall : Int
  offset : Int
  tz : Tz
  deriving Repr, DecidableEq

/-- The absolute instant of an aware datetime (utc minutes); aware
datetimes compare and equate by this value. -/
def Aware.instant (a : Aware) : Int := a.wall - a.offset

/-- Python `datetime.astimezone(tz)`: keep the instant and rebuild the
wall-clock in the target zone; for a pytz zone this is `fromutc`, which
applies the transition info in force at the instant. -/
def Aware.astimezone (a : Aware) (tz : Tz) : Aware :=
  match tz with
  | .fixed o => ⟨a.instant + o, o, tz⟩
  | .dst z =>
      let info := z.infoAt a.instant
      ⟨a.instant + info.offset, info.offset, tz⟩

/-- The candidate interpretations pytz's `localize` collects for a naive
wall-clock `n`: probe the transition table at `n ± 1` day (the source
bisects the utc transition times with the naive value), normalize the
wall-clock under the probed offset, and keep each interpretation that maps
back to `n`; the two probes collapse when they agree (the source
accumulates aware datetimes into a set, which equates them by instant). -/
def DstZone.possibleLocs (z : DstZone) (n : Int) : List ZoneInfo :=
  match probe z n (-1440), probe z n 1440 with
  | some a, some b => if a.offset = b.offset then [a] else [a, b]
  | some a, none => [a]
  | none, some b => [b]
  | none, none => []
where
  probe (z : DstZone) (n d : Int) : Option ZoneInfo :=
    let info := z.infoAt (n + d)
    let inst := n - info.offset
    let info2 := z.infoAt inst
    if inst + info2.offset = n then some info2 else none

/-- pytz `DstTzInfo.localize(dt, is_dst=False)`, the only form the code
invokes.  A single candidate is returned as-is.  Of several, the non-DST
candidates are preferred; a unique survivor is returned, otherwise the
candidate with the earliest utc instant (the largest offset, all walls
being equal) wins.  With no candidate at all — a nonexistent wall-clock —
the source localizes the time six hours earlier and adds the six hours
back onto the aware result; that self-call is modelled with the `fuel`
recursion bound, `none` reporting only bound exhaustion. -/
def DstZone.localizeF (z : DstZone) : Nat → Int → Option Aware
  | 0, _ => none
  | fuel+1, n =>
    match z.possibleLocs n with
    | [a] => some ⟨n, a.offset, .dst z⟩
    | [] => (z.localizeF fuel (n - 360)).map (fun a => ⟨a.wall + 360, a.offset, a.tz⟩)
    | cands =>
      match cands.filter (fun i => i.isDst == false) with
      | [b] => some ⟨n, b.offset, .dst z⟩
      | picks =>
          let picks2 := if picks.isEmpty then cands else picks
          match picks2.foldl (fun acc i =>
            match acc with
            | Option.none => some i
            | some j => if i.offset > j.offset then some i else some j) Option.none with
          | some i => some ⟨n, i.offset, .dst z⟩
          | Option.none => none

/-- Total form of `localize` with the recursion bound fixed at 4; real
zones resolve within two steps, and the fallback (never reached on them)
keeps the wall-clock and applies the info in force at `n`. -/
def DstZone.localize (z : DstZone) (n : Int) : Aware :=
  (z.localizeF 4 n).getD ⟨n, (z.infoAt n).offset, .dst z⟩

/-- A Python datetime as the code receives it: naive or aware. -/
inductive DT where
  | naive (wall : Int)
  | aware (a : Aware)
  deriving Repr, DecidableEq

/-- `_dt_localize` (`_data.py` lines 30-34): a pytz `DstTzInfo` goes
through `localize`, any other tzinfo is attached verbatim
(`dt.replace(tzinfo=tz)`). -/
def dt_localize (n : Int) (tz : Tz) : Aware :=
  match tz with
  | .fixed o => ⟨n, o, tz⟩
  | .dst z => z.localize n

/-- `_dt_add_days` (`_data.py` lines 24-27): combine the aware datetime's
wall-clock date plus `days` with its time-of-day as a naive value and
re-localize it in the datetime's own tzinfo. -/
def dt_add_days (a : Aware) (days : Int) : Aware :=
  dt_localize (1440 * (a.wall.fdiv 1440 + days) + a.wall.emod 1440) a.tz

/-- A timetable entry projected to its two integer fields, `zone_id` and
`m_offset` (`_data.py` lines 349-357). -/
structure Timepoint where
  zone_id : Int
  m_offset : Int
  deriving Repr, DecidableEq

/-- The `days` component of `Timepoint.get_timedelta`, Python
`timedelta(minutes=m).days` (floor of the total seconds over 86400). -/
def Timepoint.td_days (tp : Timepoint) : Int := (60 * tp.m_offset).fdiv 86400

/-- The `seconds` component of `Timepoint.get_timedelta`, always in
`[0, 86400)`. -/
def Timepoint.td_seconds (tp : Timepoint) : Int := (60 * tp.m_offset).emod 86400

/-- Core of `Timepoint.get_datetime` (`_data.py` lines 363-397) for an
aware `week` reference: convert the reference into the home timezone,
compute the home-local Monday 00:00 week start, combine its date with the
offset's day count and time-of-day as a naive wall-clock, localize that in
the home timezone, and convert back into the reference's timezone unless
`home_timezone` is set. -/
def Timepoint.get_datetime_aware (tp : Timepoint) (home : Tz) (w : Aware)
    (home_timezone : Bool) : Aware :=
  let week_timezone := w.tz
  let week := w.astimezone home
  let week_start :=
    dt_localize (1440 * (week.wall.fdiv 1440 - (week.wall.fdiv 1440).emod 7)) home
  let hour := tp.td_seconds.fdiv 3600
  let minute := (tp.td_seconds.fdiv 60).emod 60
  let dtn := 1440 * (week_start.wall.fdiv 1440 + tp.td_days) + 60 * hour + minute
  let dt := dt_localize dtn home
  if home_timezone then dt else dt.astimezone week_timezone

/-- `Timepoint.get_datetime` (`_data.py` lines 363-397): a naive week
reference raises `ValueError("Week must be aware datetime")`. -/
def Timepoint.get_datetime (tp : Timepoint) (home : Tz) (week : DT)
    (home_timezone : Bool) : Except Err Aware :=
  match week with
  | .naive _ => .error .valueError
  | .aware w => .ok (tp.get_datetime_aware home w home_timezone)

/-- The state `Timetable.get_week` and `Timetable.get_period` read: the
timepoint list (read as `self.timetable`), the schedule's `type` tag (read
as `self.type`; both live on the enclosing `Schedule`) and the home
timezone (`self._timezone`). -/
structure Timetable where
  type : Option String
  timetable : List Timepoint
  tz : Tz

/-- Comparison applied by `week_timepoints.sort(key=lambda x: x[0])`:
aware datetimes order by instant, and Python's sort is stable. -/
def entryLe (a b : Aware × Timepoint) : Bool := a.1.instant ≤ b.1.instant

/-- `Timetable.get_week` (`_data.py` lines 293-312).  A naive reference
raises `ValueError`.  Every timepoint is resolved in timetable order; for
a "therm" or "cooling" schedule the first entry is dropped when its
`zone_id` equals the last entry's; on an empty timetable that subscript
`week_timepoints[0]` raises `IndexError`, because the
`ValueError("Schedule has invalid timetable")` on the line before it is
constructed but never raised.  The result is the stable sort by instant. -/
def Timetable.get_week (tt : Timetable) (week : DT) (home_tz : Bool) :
    Except Err (List (Aware × Timepoint)) :=
  match week with
  | .naive _ => .error .valueError
  | .aware w =>
    let week_timepoints := tt.timetable.map
      (fun tp => (tp.get_datetime_aware tt.tz w home_tz, tp))
    if tt.type = some "therm" ∨ tt.type = some "cooling" then
      match week_timepoints with
      | [] => .error .indexError
      | first :: rest =>
          let last := (first :: rest).getLast (List.cons_ne_nil _ _)
          let kept := if first.2.zone_id = last.2.zone_id then rest else first :: rest
          .ok (kept.mergeSort entryLe)
    else .ok (week_timepoints.mergeSort entryLe)

/-- One pass of the inner `for` loop of `Timetable.get_period` over a
week's resolved entries, with the running `count`: the entries yielded,
the updated count, and whether the generator executed `return`
(`count == count_max`, or an entry beyond `dt_to`). -/
def periodScan (dt_from dt_to : Aware) (count_max : Option Nat) :
    List (Aware × Timepoint) → Nat → List (Aware × Timepoint) × Nat × Bool
  | [], count => ([], count, false)
  | e :: es, count =>
    if some count = count_max ∨ e.1.instant > dt_to.instant then ([], count, true)
    else if e.1.instant < dt_from.instant then
      periodScan dt_from dt_to count_max es count
    else
      let (out, c, r) := periodScan dt_from dt_to count_max es (count + 1)
      (e :: out, c, r)

/-- The week-by-week `while True` loop of `Timetable.get_period`
(`_data.py` lines 323-335), with an explicit `fuel` bound on the number of
weeks walked (the source has no bound of its own).  The boolean result is
`true` when the source's own `return` ended the walk and `false` when the
fuel ran out with the walk still going. -/
def Timetable.get_period_aux (tt : Timetable) (dt_from dt_to : Aware)
    (count_max : Option Nat) (home_tz : Bool) :
    Nat → Aware → Nat → Except Err (List (Aware × Timepoint) × Bool)
  | 0, _, _ => .ok ([], false)
  | fuel+1, week, count =>
    match tt.get_week (.aware week) home_tz with
    | .error e => .error e
    | .ok entries =>
      let (out, count2, ret) := periodScan dt_from dt_to count_max entries count
      if ret then .ok (out, true)
      else if count2 = 0 then .ok (out, true)
      else
        match tt.get_period_aux dt_from dt_to count_max home_tz fuel
            (dt_add_days week 7) count2 with
        | .error e => .error e
        | .ok (rest, done) => .ok (out ++ rest, done)

/-- `Timetable.get_period` (`_data.py` lines 314-335): a naive bound
raises `ValueError("dt_from and dt_to must be aware datetimes")`; the walk
then starts at `dt_from`'s own week with `count = 0`. -/
def Timetable.get_period (tt : Timetable) (dt_from dt_to : DT)
    (count_max : Option Nat) (home_tz : Bool) (fuel : Nat) :
    Except Err (List (Aware × Timepoint) × Bool) :=
  match dt_from, dt_to with
  | .naive _, _ => .error .valueError
  | .aware _, .naive _ => .error .valueError
  | .aware f, .aware t => tt.get_period_aux f t count_max home_tz fuel f 0

/-- Python `datetime.min`, the default `dt_from`: the naive datetime
0001-01-01 00:00. -/
def datetime_min : DT := .naive 0

/-- Python `datetime.max`, the default `dt_to`: the naive datetime
9999-12-31 23:59 (sub-minute precision does not matter here). -/
def datetime_max : DT := .naive (3652058 * 1440 + 1439)

/-- `Timetable.get_period` invoked with its default bounds. -/
def Timetable.get_period_defaults (tt : Timetable) (count_max : Option Nat)
    (home_tz : Bool) (fuel : Nat) : Except Err (List (Aware × Timepoint) × Bool) :=
  tt.get_period datetime_min datetime_max count_max home_tz fuel

/-- A `zones` entry projected to its integer `id` (`_data.py` lines
429-435). -/
structure Zone where
  id : Int
  deriving Repr, DecidableEq

/-- `Zones.get_id`: linear scan returning the first zone with the
requested id, or nothing. -/
def Zones.get_id (zones : List Zone) (zone_id : Int) : Option Zone :=
  zones.find? (fun z => z.id = zone_id)

/-- `Schedule.get_period` (`_data.py` lines 249-259): iterate the
timetable walk and pair each yielded instant with the zone found by the
timepoint's `zone_id`. -/
def Schedule.get_period (tt : Timetable) (zones : List Zone) (dt_from dt_to : DT)
    (count_max : Option Nat) (home_tz : Bool) (fuel : Nat) :
    Except Err (List (Aware × Option Zone) × Bool) :=
  match tt.get_period dt_from dt_to count_max home_tz fuel with
  | .error e => .error e
  | .ok (l, done) =>
      .ok (l.map (fun e => (e.1, Zones.get_id zones e.2.zone_id)), done)

/-- `Schedule.get_period` invoked with its default bounds
(`dt_from=datetime.min`, `dt_to=datetime.max`). -/
def Schedule.get_period_defaults (tt : Timetable) (zones : List Zone)
    (count_max : Option Nat) (home_tz : Bool) (fuel : Nat) :
    Except Err (List (Aware × Option Zone) × Bool) :=
  Schedule.get_period tt zones datetime_min datetime_max count_max home_tz fuel

/-! ## Characterisation lemmas -/

/-- The sublist of timepoints a `get_week` call keeps: every entry, or all
but the raw-order first when the therm/cooling continuation rule fires;
nothing at all on the erroring empty-therm case.  The decision depends
only on the timetable, never on the requested week. -/
def Timetable.kept (tt : Timetable) : Option (List Timepoint) :=
  if tt.type = some "therm" ∨ tt.type = some "cooling" then
    match tt.timetable with
    | [] => Option.none
    | tp :: tps =>
        some (if tp.zone_id = ((tp :: tps).getLast (List.cons_ne_nil tp tps)).zone_id
              then tps else tp :: tps)
  else some tt.timetable

theorem getLast_map_cons {α β : Type} (f : α → β) (a : α) (l : List α) :
    (f a :: List.map f l).getLast (List.cons_ne_nil _ _)
      = f ((a :: l).getLast (List.cons_ne_nil a l)) := by
  induction l generalizing a with
  | nil => rfl
  | cons b t ih =>
      rw [List.map_cons]
      rw [List.getLast_cons (List.cons_ne_nil (f b) (List.map f t))]
      rw [List.getLast_cons (List.cons_ne_nil b t)]
      exact ih b

theorem get_week_aware_eq (tt : Timetable) (w : Aware) (flag : Bool) :
    tt.get_week (.aware w) flag =
      match tt.kept with
      | Option.none => .error .indexError
      | some ks =>
          .ok ((ks.map (fun tp => (tp.get_datetime_aware tt.tz w flag, tp))).mergeSort entryLe) := by
  simp only [Timetable.get_week, Timetable.kept]
  by_cases hc : tt.type = some "therm" ∨ tt.type = some "cooling"
  · simp only [if_pos hc]
    cases htt : tt.timetable with
    | nil => rfl
    | cons tp tps =>
        have hlast := getLast_map_cons
          (fun tp : Timepoint => (tp.get_datetime_aware tt.tz w flag, tp)) tp tps
        simp only [List.map_cons, hlast]
        by_cases hz : tp.zone_id = ((tp :: tps).getLast (List.cons_ne_nil tp tps)).zone_id
        · simp [if_pos hz]
        · simp [if_neg hz]
  · simp only [if_neg hc]

theorem get_week_aware_ne_valueError (tt : Timetable) (w : Aware) (flag : Bool) :
    tt.get_week (.aware w) flag ≠ .error .valueError := by
  rw [get_week_aware_eq]
  cases tt.kept <;> simp

theorem get_period_aux_ne_valueError (tt : Timetable) (f t : Aware)
    (cmax : Option Nat) (flag : Bool) :
    ∀ (fuel : Nat) (week : Aware) (count : Nat),
      tt.get_period_aux f t cmax flag fuel week count ≠ .error .valueError := by
  intro fuel
  induction fuel with
  | zero => intro week count h; simp [Timetable.get_period_aux] at h
  | succ n ih =>
      intro week count h
      rw [Timetable.get_period_aux] at h
      cases hgw : tt.get_week (.aware week) flag with
      | error e =>
          rw [hgw] at h
          simp only [Except.error.injEq] at h
          exact get_week_aware_ne_valueError tt week flag (by rw [hgw, h])
      | ok entries =>
          rw [hgw] at h
          simp only at h
          split at h
          · exact Except.noConfusion h
          · split at h
            · exact Except.noConfusion h
            · split at h
              · rename_i e2 heq2
                simp only [Except.error.injEq] at h
                exact ih _ _ (by rw [heq2, h])
              · exact Except.noConfusion h

/-! ## Claim theorems -/

/-- C2: for a "therm" or "cooling" schedule and an aware week reference,
`Timetable.get_week` on an empty timetable surfaces an error rather than
returning a result: the constructed-but-unraised `ValueError` is
immediately followed by the `week_timepoints[0]` subscript, whose
`IndexError` propagates. -/
theorem get_week_empty_timetable_raises (ty : String)
    (hty : ty = "therm" ∨ ty = "cooling") (tz : Tz) (w : Aware) (flag : Bool) :
    Timetable.get_week ⟨some ty, [], tz⟩ (.aware w) flag = .error .indexError := by
  rw [get_week_aware_eq]
  rcases hty with h1 | h1 <;> simp [Timetable.kept, h1]

/-- Witness for `get_week_empty_timetable_raises` at a concrete call. -/
theorem get_week_empty_timetable_raises_witness :
    Timetable.get_week ⟨some "therm", [], .fixed 0⟩ (.aware ⟨0, 0, .fixed 0⟩) false
      = .error .indexError :=
  get_week_empty_timetable_raises "therm" (Or.inl rfl) (.fixed 0) ⟨0, 0, .fixed 0⟩ false

/-- C10: `Timetable.get_period` and `Schedule.get_period` invoked with
their default bounds always raise the awareness `ValueError`, because the
defaults `datetime.min` and `datetime.max` are naive datetimes; the
nominally unbounded defaults can never produce any output. -/
theorem get_period_defaults_always_raise :
    (∀ (tt : Timetable) (cmax : Option Nat) (flag : Bool) (fuel : Nat),
       tt.get_period_defaults cmax flag fuel = .error .valueError) ∧
    (∀ (tt : Timetable) (zones : List Zone) (cmax : Option Nat) (flag : Bool) (fuel : Nat),
       Schedule.get_period_defaults tt zones cmax flag fuel = .error .valueError) :=
  ⟨fun _ _ _ _ => rfl, fun _ _ _ _ _ => rfl⟩

/-- C8: typed getters on a map-shaped node raise `ObjectAttributeError`
for an absent key and `ObjectTypeError` for a present value of the wrong
runtime kind; and `HomeData.name` — declared `Optional[str]` and tested by
the repo to yield an absence signal — nevertheless raises
`ObjectAttributeError` on an absent key, the divergence recorded for this
claim. -/
theorem typed_getter_errors :
    (∀ (m : MappingObject) (key : String) (kind : TypeKind),
       m.getitem key = Option.none → m.get_type key kind = .error .objectAttributeError) ∧
    (∀ (m : MappingObject) (key : String) (kind : TypeKind) (v : Node),
       m.getitem key = some v → v.isinst kind = false →
       m.get_type key kind = .error .objectTypeError) ∧
    (∀ m : MappingObject, m.getitem "name" = Option.none →
       HomeData.name m = .error .objectAttributeError) := by
  refine ⟨?_, ?_, ?_⟩
  · intro m key kind h
    simp [MappingObject.get_type, h]
  · intro m key kind v h hk
    simp [MappingObject.get_type, h, hk]
  · intro m h
    simp [HomeData.name, MappingObject.get_str, MappingObject.get_type, h]

/-- Witness for `typed_getter_errors`: a concrete empty node, a node with
a null `"name"`, and a home node lacking `"name"`. -/
theorem typed_getter_errors_witness :
    MappingObject.get_type [] "x" .int = .error .objectAttributeError ∧
    MappingObject.get_type [("name", .null)] "name" .str = .error .objectTypeError ∧
    HomeData.name [("timezone", .str "Europe/Vienna")] = .error .objectAttributeError :=
  ⟨typed_getter_errors.1 [] "x" .int rfl,
   typed_getter_errors.2.1 [("name", .null)] "name" .str .null rfl rfl,
   typed_getter_errors.2.2 [("timezone", .str "Europe/Vienna")] rfl⟩

mutual

theorem representable_assign_ok (v : PyVal) (h : v.representable = true) :
  ∃ n, assignNode v = .ok n := by
cases v with
| none => exact ⟨.null, rfl⟩
| pybool b => exact ⟨.bool b, rfl⟩
| pyint n => exact ⟨.int n, rfl⟩
| pyfloat q => exact ⟨.float q, rfl⟩
| pystr s => exact ⟨.str s, rfl⟩
| pylist l =>
    obtain ⟨ns, hns⟩ := representableList_assign_ok l
      (by simpa [PyVal.representable] using h)
    exact ⟨.seq ns, by simp [assignNode, PyVal.isinstBool, PyVal.isinstInt,
      PyVal.isinstFloat, PyVal.isinstStr, hns, Bind.bind, Except.bind]⟩
| pydict d =>
    obtain ⟨ps, hps⟩ := representablePairs_assign_ok d
      (by simpa [PyVal.representable] using h)
    exact ⟨.map ps, by simp [assignNode, PyVal.isinstBool, PyVal.isinstInt,
      PyVal.isinstFloat, PyVal.isinstStr, hps, Bind.bind, Except.bind]⟩
| other t => simp [PyVal.representable] at h

theorem representableList_assign_ok (l : List PyVal)
  (h : PyVal.representableList l = true) : ∃ ns, assignList l = .ok ns := by
cases l with
| nil => exact ⟨[], rfl⟩
| cons v vs =>
    rw [PyVal.representableList, Bool.and_eq_true] at h
    obtain ⟨n, hn⟩ := representable_assign_ok v h.1
    obtain ⟨ns, hns⟩ := representableList_assign_ok vs h.2
    exact ⟨n :: ns, by simp [assignList, hn, hns, Bind.bind, Except.bind]⟩

theorem representablePairs_assign_ok (d : List (String × PyVal))
  (h : PyVal.representablePairs d = true) : ∃ ps, assignPairs d = .ok ps := by
cases d with
| nil => exact ⟨[], rfl⟩
| cons p ps =>
    obtain ⟨k, v⟩ := p
    rw [PyVal.representablePairs, Bool.and_eq_true] at h
    obtain ⟨n, hn⟩ := representable_assign_ok v h.1
    obtain ⟨ns, hns⟩ := representablePairs_assign_ok ps h.2
    exact ⟨(k, n) :: ns, by simp [assignPairs, hn, hns, Bind.bind, Except.bind]⟩

end

/-- C9: constructing a node from a decoded value of an unrepresentable
shape fails — but with the builtin `TypeError` produced by invoking the
broken `ObjectDataError` constructor, not with the `ObjectDataError`
itself — while every value built only from the representable shapes
constructs successfully, and a boolean classifies as `Bool` (never as a
numeric kind) because the `bool` check precedes the `int` check. -/
theorem assign_classification :
    (∀ tag, assignNode (.other tag) = .error .pyTypeError) ∧
    (∀ v : PyVal, v.representable = true → ∃ n, assignNode v = .ok n) ∧
    (∀ b, assignNode (.pybool b) = .ok (.bool b)) :=
  ⟨fun _ => rfl, fun v h => representable_assign_ok v h, fun _ => rfl⟩

/-- Witness for `assign_classification` at concrete values. -/
theorem assign_classification_witness :
    assignNode (.other "set") = .error .pyTypeError ∧
    (∃ n, assignNode (.pylist [.pybool true, .pyint 3]) = .ok n) ∧
    assignNode (.pybool true) = .ok (.bool true) :=
  ⟨assign_classification.1 "set",
   assign_classification.2.1 (.pylist [.pybool true, .pyint 3]) rfl,
   assign_classification.2.2 true⟩

/-- C6: the three resolution entry points raise the awareness
`ValueError` exactly when a supplied reference instant is naive; an aware
reference never triggers that error (`get_week` can instead surface
`IndexError`, a different error). -/
theorem naive_reference_precondition :
    (∀ (tp : Timepoint) (home : Tz) (n : Int) (flag : Bool),
       tp.get_datetime home (.naive n) flag = .error .valueError) ∧
    (∀ (tp : Timepoint) (home : Tz) (w : Aware) (flag : Bool),
       tp.get_datetime home (.aware w) flag ≠ .error .valueError) ∧
    (∀ (tt : Timetable) (n : Int) (flag : Bool),
       tt.get_week (.naive n) flag = .error .valueError) ∧
    (∀ (tt : Timetable) (w : Aware) (flag : Bool),
       tt.get_week (.aware w) flag ≠ .error .valueError) ∧
    (∀ (tt : Timetable) (t2 : DT) (n : Int) (cmax : Option Nat) (flag : Bool) (fuel : Nat),
       tt.get_period (.naive n) t2 cmax flag fuel = .error .valueError) ∧
    (∀ (tt : Timetable) (f : Aware) (n : Int) (cmax : Option Nat) (flag : Bool) (fuel : Nat),
       tt.get_period (.aware f) (.naive n) cmax flag fuel = .error .valueError) ∧
    (∀ (tt : Timetable) (f t : Aware) (cmax : Option Nat) (flag : Bool) (fuel : Nat),
       tt.get_period (.aware f) (.aware t) cmax flag fuel ≠ .error .valueError) := by
  refine ⟨fun _ _ _ _ => rfl, ?_, fun _ _ _ => rfl, ?_, ?_, fun _ _ _ _ _ _ => rfl, ?_⟩
  · intro tp home w flag h
    exact Except.noConfusion h
  · exact get_week_aware_ne_valueError
  · intro tt t2 n cmax flag fuel
    cases t2 <;> rfl
  · intro tt f t cmax flag fuel
    exact get_period_aux_ne_valueError tt f t cmax flag fuel f 0

/-- Witness for `naive_reference_precondition` at concrete calls. -/
theorem naive_reference_precondition_witness :
    Timepoint.get_datetime ⟨1, 0⟩ (.fixed 0) (.naive 0) false = .error .valueError ∧
    Timetable.get_period ⟨Option.none, [], .fixed 0⟩ (.aware ⟨0, 0, .fixed 0⟩)
      (.aware ⟨0, 0, .fixed 0⟩) Option.none false 1 ≠ .error .valueError :=
  ⟨naive_reference_precondition.1 ⟨1, 0⟩ (.fixed 0) 0 false,
   naive_reference_precondition.2.2.2.2.2.2 ⟨Option.none, [], .fixed 0⟩
     ⟨0, 0, .fixed 0⟩ ⟨0, 0, .fixed 0⟩ Option.none false 1⟩

unseal List.merge List.mergeSort in
/-- C1 counterexample: a "therm" timetable `[(zone 1, 100), (zone 1, 0),
(zone 2, 50)]` in a fixed-offset home zone.  The chronologically-first
resolved occurrence (instant 0, zone 1) and the chronologically-last one
(instant 100, zone 1) share a `zone_id`, so the claim demands the length
3 - 1 = 2; but the code compares the first and last entries in timetable
order (zones 1 and 2, different), drops nothing, and returns all 3. -/
theorem get_week_chronological_drop_counterexample :
    Timetable.get_week ⟨some "therm", [⟨1, 100⟩, ⟨1, 0⟩, ⟨2, 50⟩], .fixed 0⟩
        (.aware ⟨0, 0, .fixed 0⟩) false
      = .ok [(⟨0, 0, .fixed 0⟩, ⟨1, 0⟩), (⟨50, 0, .fixed 0⟩, ⟨2, 50⟩),
             (⟨100, 0, .fixed 0⟩, ⟨1, 100⟩)] ∧
    ¬ (([(⟨0, 0, .fixed 0⟩, ⟨1, 0⟩), (⟨50, 0, .fixed 0⟩, ⟨2, 50⟩),
         (⟨100, 0, .fixed 0⟩, ⟨1, 100⟩)] : List (Aware × Timepoint)).length
        = ([⟨1, 100⟩, ⟨1, 0⟩, ⟨2, 50⟩] : List Timepoint).length - 1) :=
  ⟨rfl, by decide⟩

/-- C1 amended: for a "therm" or "cooling" schedule with a nonempty
timetable, `get_week` drops the first-in-timetable-order resolved
occurrence exactly when its `zone_id` equals the last-in-timetable-order
occurrence's `zone_id` — the output is a permutation of the resolved kept
entries, and its length is the raw count minus one exactly in that case —
while for every other schedule type the length always equals the raw
count. -/
theorem get_week_drop_by_timetable_order (tz : Tz) (w : Aware) (flag : Bool) :
    (∀ (ty : String) (tp : Timepoint) (tps : List Timepoint),
       (ty = "therm" ∨ ty = "cooling") →
       ∃ l, Timetable.get_week ⟨some ty, tp :: tps, tz⟩ (.aware w) flag = .ok l ∧
         l.Perm ((if tp.zone_id = ((tp :: tps).getLast (List.cons_ne_nil tp tps)).zone_id
             then tps else tp :: tps).map
               (fun p => (p.get_datetime_aware tz w flag, p))) ∧
         (tp.zone_id = ((tp :: tps).getLast (List.cons_ne_nil tp tps)).zone_id →
            l.length = (tp :: tps).length - 1) ∧
         (tp.zone_id ≠ ((tp :: tps).getLast (List.cons_ne_nil tp tps)).zone_id →
            l.length = (tp :: tps).length)) ∧
    (∀ (ty : Option String) (tps : List Timepoint),
       ty ≠ some "therm" → ty ≠ some "cooling" →
       ∃ l, Timetable.get_week ⟨ty, tps, tz⟩ (.aware w) flag = .ok l ∧
         l.length = tps.length) := by
  constructor
  · intro ty tp tps hty
    have hcond : (⟨some ty, tp :: tps, tz⟩ : Timetable).type = some "therm" ∨
        (⟨some ty, tp :: tps, tz⟩ : Timetable).type = some "cooling" := by
      rcases hty with h | h <;> [exact Or.inl (by rw [h]); exact Or.inr (by rw [h])]
    refine ⟨((if tp.zone_id = ((tp :: tps).getLast (List.cons_ne_nil tp tps)).zone_id
        then tps else tp :: tps).map
          (fun p => (p.get_datetime_aware tz w flag, p))).mergeSort entryLe,
      ?_, List.mergeSort_perm _ _, ?_, ?_⟩
    · rw [get_week_aware_eq]
      simp only [Timetable.kept, if_pos hcond]
    · intro hz
      rw [if_pos hz]
      simp [List.length_mergeSort]
    · intro hz
      rw [if_neg hz]
      simp [List.length_mergeSort]
  · intro ty tps h1 h2
    have hcond : ¬ ((⟨ty, tps, tz⟩ : Timetable).type = some "therm" ∨
        (⟨ty, tps, tz⟩ : Timetable).type = some "cooling") := by
      rintro (h | h) <;> [exact h1 h; exact h2 h]
    refine ⟨(tps.map (fun p => (p.get_datetime_aware tz w flag, p))).mergeSort entryLe,
      ?_, ?_⟩
    · rw [get_week_aware_eq]
      simp only [Timetable.kept, if_neg hcond]
    · simp [List.length_mergeSort]

/-- Witness for `get_week_drop_by_timetable_order`: a two-entry "therm"
timetable whose first and last entries share zone 1, resolved to a single
kept entry, and a type-less timetable keeping both entries. -/
theorem get_week_drop_by_timetable_order_witness :
    (∃ l, Timetable.get_week ⟨some "therm", [⟨1, 0⟩, ⟨1, 60⟩], .fixed 0⟩
        (.aware ⟨0, 0, .fixed 0⟩) false = .ok l ∧ l.length = 1) ∧
    (∃ l, Timetable.get_week ⟨Option.none, [⟨1, 0⟩, ⟨1, 60⟩], .fixed 0⟩
        (.aware ⟨0, 0, .fixed 0⟩) false = .ok l ∧ l.length = 2) := by
  constructor
  · obtain ⟨l, hl, -, hlen, -⟩ :=
      (get_week_drop_by_timetable_order (.fixed 0) ⟨0, 0, .fixed 0⟩ false).1 "therm"
        ⟨1, 0⟩ [⟨1, 60⟩] (Or.inl rfl)
    exact ⟨l, hl, by simpa using hlen rfl⟩
  · obtain ⟨l, hl, hlen⟩ :=
      (get_week_drop_by_timetable_order (.fixed 0) ⟨0, 0, .fixed 0⟩ false).2 Option.none
        [⟨1, 0⟩, ⟨1, 60⟩] (by simp) (by simp)
    exact ⟨l, hl, by simpa using hlen⟩

unseal List.merge List.mergeSort in
/-- C7 counterexample: two timepoints with the same `m_offset` resolve to
the same instant, so the returned sequence is not strictly ascending. -/
theorem get_week_not_strictly_ascending :
    Timetable.get_week ⟨Option.none, [⟨1, 0⟩, ⟨2, 0⟩], .fixed 0⟩
        (.aware ⟨0, 0, .fixed 0⟩) false
      = .ok [(⟨0, 0, .fixed 0⟩, ⟨1, 0⟩), (⟨0, 0, .fixed 0⟩, ⟨2, 0⟩)] ∧
    ¬ ((⟨0, 0, .fixed 0⟩ : Aware).instant < (⟨0, 0, .fixed 0⟩ : Aware).instant) :=
  ⟨rfl, by decide⟩

/-- C7 amended: for every aware week reference the sequence returned by
`get_week` is ascending by resolved instant non-strictly — equal instants
(duplicate minute offsets, or distinct offsets collapsed by a DST gap)
appear in adjacent positions. -/
theorem get_week_sorted (tt : Timetable) (w : Aware) (flag : Bool)
    (l : List (Aware × Timepoint)) (h : tt.get_week (.aware w) flag = .ok l) :
    l.Pairwise (fun a b => a.1.instant ≤ b.1.instant) := by
  rw [get_week_aware_eq] at h
  cases hk : tt.kept with
  | none => rw [hk] at h; exact Except.noConfusion h
  | some ks =>
      rw [hk] at h
      simp only [Except.ok.injEq] at h
      subst h
      have hs := @List.sorted_mergeSort _ entryLe
        (fun a b c h1 h2 => by
          simp only [entryLe, decide_eq_true_eq] at h1 h2 ⊢
          exact le_trans h1 h2)
        (fun a b => by
          simp only [entryLe, Bool.or_eq_true, decide_eq_true_eq]
          exact le_total _ _)
        (ks.map (fun tp => (tp.get_datetime_aware tt.tz w flag, tp)))
      exact hs.imp (fun hab => by simpa [entryLe] using hab)

unseal List.merge List.mergeSort in
/-- Witness for `get_week_sorted` at a concrete two-entry timetable. -/
theorem get_week_sorted_witness :
    ([(⟨5, 0, .fixed 0⟩, ⟨1, 5⟩), (⟨9, 0, .fixed 0⟩, ⟨2, 9⟩)] :
        List (Aware × Timepoint)).Pairwise (fun a b => a.1.instant ≤ b.1.instant) :=
  get_week_sorted ⟨Option.none, [⟨1, 5⟩, ⟨2, 9⟩], .fixed 0⟩ ⟨0, 0, .fixed 0⟩ false _ rfl

/-- The Europe/Vienna zone for 2022 as pytz models it: CET (+60) in
force initially, the spring transition to CEST (+120) at
2022-03-27 01:00 UTC, and the fall transition back to CET at
2022-10-30 01:00 UTC; instants in minutes since 0001-01-01 00:00. -/
def vienna2022 : DstZone :=
  ⟨⟨60, false⟩, [(1063065660, ⟨120, true⟩), (1063378140, ⟨60, false⟩)]⟩

/-- C3 counterexample: the wall-clock 2022-10-30 02:30 in the Vienna zone
is ambiguous — pytz's candidate set holds both the CEST (+120)
interpretation, the earlier instant, and the CET (+60) one — yet
`_dt_localize` returns the CET interpretation, the LATER of the two valid
instants, refuting the claimed earliest-valid-interpretation policy. -/
theorem dt_localize_fold_not_earliest :
    DstZone.possibleLocs vienna2022 1063378230 = [⟨120, true⟩, ⟨60, false⟩] ∧
    dt_localize 1063378230 (.dst vienna2022) = ⟨1063378230, 60, .dst vienna2022⟩ ∧
    (1063378230 : Int) - 120 < 1063378230 - 60 ∧
    (dt_localize 1063378230 (.dst vienna2022)).instant ≠ 1063378230 - 120 :=
  ⟨rfl, rfl, by decide, by decide⟩

/-- C3 amended: `_dt_localize` resolves a DST fold with pytz's
`is_dst=False` policy — of an ambiguous wall-clock's two valid
interpretations the standard-time (non-DST) one is returned, which at a
fall-back fold is the LATER instant — while a nonexistent (gap)
wall-clock still yields a well-defined aware result without error (the
source re-localizes six hours earlier and shifts the result back). -/
theorem dt_localize_fold_gap_policy :
    (∀ (z : DstZone) (n : Int) (a b : ZoneInfo),
       z.possibleLocs n = [a, b] → a.isDst = true → b.isDst = false →
       b.offset < a.offset →
       dt_localize n (.dst z) = ⟨n, b.offset, .dst z⟩ ∧
       n - a.offset < (dt_localize n (.dst z)).instant) ∧
    (∀ (z : DstZone) (n : Int) (a : ZoneInfo),
       z.possibleLocs n = [] → z.possibleLocs (n - 360) = [a] →
       dt_localize n (.dst z) = ⟨n, a.offset, .dst z⟩) := by
  constructor
  · intro z n a b hpl ha hb hlt
    have heq : dt_localize n (.dst z) = ⟨n, b.offset, .dst z⟩ := by
      show z.localize n = _
      rw [DstZone.localize, DstZone.localizeF, hpl]
      simp only [List.filter, hb, ha, decide_True, decide_False, Bool.false_eq_true,
        beq_iff_eq, Option.getD_some]
      rfl
    refine ⟨heq, ?_⟩
    rw [heq]
    show n - a.offset < n - b.offset
    omega
  · intro z n a hpl hpl2
    show z.localize n = _
    rw [DstZone.localize, DstZone.localizeF, hpl, DstZone.localizeF, hpl2]
    simp only [Option.map_some', Option.getD_some, Aware.mk.injEq, and_true, true_and]
    omega

/-- Witness for `dt_localize_fold_gap_policy` at the Vienna fold
2022-10-30 02:30 and the Vienna gap 2022-03-27 02:30. -/
theorem dt_localize_fold_gap_policy_witness :
    (dt_localize 1063378230 (.dst vienna2022) = ⟨1063378230, 60, .dst vienna2022⟩ ∧
     (1063378230 : Int) - 120 < (dt_localize 1063378230 (.dst vienna2022)).instant) ∧
    dt_localize 1063065750 (.dst vienna2022) = ⟨1063065750, 60, .dst vienna2022⟩ :=
  ⟨dt_localize_fold_gap_policy.1 vienna2022 1063378230 ⟨120, true⟩ ⟨60, false⟩
      rfl rfl rfl (by decide),
   dt_localize_fold_gap_policy.2 vienna2022 1063065750 ⟨60, false⟩ rfl rfl⟩

theorem periodScan_spec (dt_from dt_to : Aware) (cmax : Option Nat) :
    ∀ (es : List (Aware × Timepoint)) (count : Nat),
      (∀ e ∈ (periodScan dt_from dt_to cmax es count).1,
         dt_from.instant ≤ e.1.instant ∧ e.1.instant ≤ dt_to.instant) ∧
      (periodScan dt_from dt_to cmax es count).2.1
        = count + (periodScan dt_from dt_to cmax es count).1.length ∧
      (∀ n, cmax = some n → count ≤ n →
         (periodScan dt_from dt_to cmax es count).2.1 ≤ n) := by
  intro es
  induction es with
  | nil =>
      intro count
      refine ⟨by simp [periodScan], by simp [periodScan], ?_⟩
      intro n hn hc
      simpa [periodScan] using hc
  | cons e es ih =>
      intro count
      by_cases hret : some count = cmax ∨ e.1.instant > dt_to.instant
      · refine ⟨?_, ?_, ?_⟩
        · simp [periodScan, if_pos hret]
        · simp [periodScan, if_pos hret]
        · intro n hn hc
          simpa [periodScan, if_pos hret] using hc
      · by_cases hskip : e.1.instant < dt_from.instant
        · have hred : periodScan dt_from dt_to cmax (e :: es) count
              = periodScan dt_from dt_to cmax es count := by
            rw [periodScan, if_neg hret, if_pos hskip]
          rw [hred]
          exact ih count
        · have hred : periodScan dt_from dt_to cmax (e :: es) count
              = ((e :: (periodScan dt_from dt_to cmax es (count + 1)).1,
                  (periodScan dt_from dt_to cmax es (count + 1)).2.1,
                  (periodScan dt_from dt_to cmax es (count + 1)).2.2)) := by
            rw [periodScan, if_neg hret, if_neg hskip]
          obtain ⟨ih1, ih2, ih3⟩ := ih (count + 1)
          rw [hred]
          refine ⟨?_, ?_, ?_⟩
          · intro x hx
            rcases List.mem_cons.mp hx with hx | hx
            · subst hx
              exact ⟨le_of_not_lt hskip, le_of_not_lt (fun hlt =>
                hret (Or.inr hlt))⟩
            · exact ih1 x hx
          · simpa [Nat.add_comm, Nat.add_assoc, Nat.add_left_comm] using ih2
          · intro n hn hc
            refine ih3 n hn ?_
            have hne : count ≠ n := fun hcn => hret (Or.inl (by rw [hn, hcn]))
            omega

theorem get_period_aux_spec (tt : Timetable) (f t : Aware) (cmax : Option Nat)
    (flag : Bool) :
    ∀ (fuel : Nat) (week : Aware) (count : Nat) (l : List (Aware × Timepoint))
      (done : Bool),
      tt.get_period_aux f t cmax flag fuel week count = .ok (l, done) →
      (∀ e ∈ l, f.instant ≤ e.1.instant ∧ e.1.instant ≤ t.instant) ∧
      (∀ n, cmax = some n → count ≤ n → count + l.length ≤ n) := by
  intro fuel
  induction fuel with
  | zero =>
      intro week count l done h
      rw [Timetable.get_period_aux] at h
      simp only [Except.ok.injEq, Prod.mk.injEq] at h
      obtain ⟨h1, -⟩ := h
      subst h1
      exact ⟨by simp, fun n hn hc => by simpa using hc⟩
  | succ m ih =>
      intro week count l done h
      rw [Timetable.get_period_aux] at h
      cases hgw : tt.get_week (.aware week) flag with
      | error e => rw [hgw] at h; exact Except.noConfusion h
      | ok entries =>
          rw [hgw] at h
          simp only at h
          obtain ⟨hs1, hs2, hs3⟩ := periodScan_spec f t cmax entries count
          by_cases hret : (periodScan f t cmax entries count).2.2 = true
          · rw [if_pos hret] at h
            simp only [Except.ok.injEq, Prod.mk.injEq] at h
            obtain ⟨h1, -⟩ := h
            subst h1
            refine ⟨hs1, fun n hn hc => ?_⟩
            rw [← hs2]
            exact hs3 n hn hc
          · rw [if_neg hret] at h
            by_cases hzero : (periodScan f t cmax entries count).2.1 = 0
            · rw [if_pos hzero] at h
              simp only [Except.ok.injEq, Prod.mk.injEq] at h
              obtain ⟨h1, -⟩ := h
              subst h1
              refine ⟨hs1, fun n hn hc => ?_⟩
              rw [← hs2]
              exact hs3 n hn hc
            · rw [if_neg hzero] at h
              cases haux : tt.get_period_aux f t cmax flag m (dt_add_days week 7)
                  (periodScan f t cmax entries count).2.1 with
              | error e2 => rw [haux] at h; exact Except.noConfusion h
              | ok p =>
                  obtain ⟨rest, done2⟩ := p
                  rw [haux] at h
                  simp only [Except.ok.injEq, Prod.mk.injEq] at h
                  obtain ⟨h1, -⟩ := h
                  subst h1
                  obtain ⟨ihr1, ihr2⟩ := ih _ _ _ _ haux
                  refine ⟨?_, ?_⟩
                  · intro x hx
                    rcases List.mem_append.mp hx with hx | hx
                    · exact hs1 x hx
                    · exact ihr1 x hx
                  · intro n hn hc
                    have hb1 : (periodScan f t cmax entries count).2.1 ≤ n :=
                      hs3 n hn hc
                    have hb2 := ihr2 n hn hb1
                    rw [hs2] at hb1 hb2
                    simp only [List.length_append]
                    omega

/-- C4: for every pair of aware bounds and every `count_max`,
`Timetable.get_period` yields at most `count_max` entries, and every
yielded entry's instant lies in `[dt_from, dt_to]` inclusive. -/
theorem get_period_bounds (tt : Timetable) (dtf dtt : Aware) (cmax : Option Nat)
    (flag : Bool) (fuel : Nat) (l : List (Aware × Timepoint)) (done : Bool)
    (h : tt.get_period (.aware dtf) (.aware dtt) cmax flag fuel = .ok (l, done)) :
    (∀ e ∈ l, dtf.instant ≤ e.1.instant ∧ e.1.instant ≤ dtt.instant) ∧
    (∀ n, cmax = some n → l.length ≤ n) := by
  have hs := get_period_aux_spec tt dtf dtt cmax flag fuel dtf 0 l done h
  exact ⟨hs.1, fun n hn => by simpa using hs.2 n hn (Nat.zero_le n)⟩

unseal List.merge List.mergeSort in
/-- Witness for `get_period_bounds` on a concrete one-timepoint walk
capped at 3 entries. -/
theorem get_period_bounds_witness :
    (∀ e ∈ ([(⟨0, 0, .fixed 0⟩, ⟨1, 0⟩)] : List (Aware × Timepoint)),
       (⟨0, 0, .fixed 0⟩ : Aware).instant ≤ e.1.instant ∧
       e.1.instant ≤ (⟨0, 0, .fixed 0⟩ : Aware).instant) ∧
    (∀ n, (some 3 : Option Nat) = some n →
       ([(⟨0, 0, .fixed 0⟩, ⟨1, 0⟩)] : List (Aware × Timepoint)).length ≤ n) :=
  get_period_bounds ⟨Option.none, [⟨1, 0⟩], .fixed 0⟩ ⟨0, 0, .fixed 0⟩
    ⟨0, 0, .fixed 0⟩ (some 3) false 2 [(⟨0, 0, .fixed 0⟩, ⟨1, 0⟩)] true rfl

/-! ## Zone sanity and monotonicity of the week walk -/

/-- A zone record is sane when its utcoffset stays within one day, as
every offset `pytz` can hand out does (Python itself bounds `utcoffset`
strictly below 24 hours). -/
def ZoneInfo.sane (i : ZoneInfo) : Prop := -1440 ≤ i.offset ∧ i.offset ≤ 1440

/-- Every record of the zone is sane. -/
def DstZone.sane (z : DstZone) : Prop :=
  z.base.sane ∧ ∀ p ∈ z.transitions, (p.2 : ZoneInfo).sane

/-- Sanity for either kind of tzinfo. -/
def Tz.sane : Tz → Prop
  | .fixed o => -1440 ≤ o ∧ o ≤ 1440
  | .dst z => z.sane

/-- An aware datetime with a sane zone and a sane attached offset. -/
def Aware.sane (a : Aware) : Prop := a.tz.sane ∧ -1440 ≤ a.offset ∧ a.offset ≤ 1440

theorem infoAt_go_mem (t : Int) :
    ∀ (l : List (Int × ZoneInfo)) (acc : ZoneInfo),
      DstZone.infoAt.go t acc l = acc ∨
        ∃ p ∈ l, DstZone.infoAt.go t acc l = p.2 := by
  intro l
  induction l with
  | nil => intro acc; left; rfl
  | cons p rest ih =>
      intro acc
      obtain ⟨time2, info⟩ := p
      rw [DstZone.infoAt.go]
      by_cases hle : time2 ≤ t
      · rw [if_pos hle]
        rcases ih info with h | ⟨q, hq, hqe⟩
        · right
          exact ⟨(time2, info), by simp, h⟩
        · right
          exact ⟨q, by simp [hq], hqe⟩
      · rw [if_neg hle]
        left
        rfl

theorem infoAt_sane (z : DstZone) (hz : z.sane) (t : Int) : (z.infoAt t).sane := by
  rw [DstZone.infoAt]
  rcases infoAt_go_mem t z.transitions z.base with h | ⟨p, hp, he⟩
  · rw [h]
    exact hz.1
  · rw [he]
    exact hz.2 p hp

theorem probe_sane (z : DstZone) (hz : z.sane) (n d : Int) (i : ZoneInfo)
    (h : DstZone.possibleLocs.probe z n d = some i) : i.sane := by
  simp only [DstZone.possibleLocs.probe] at h
  split at h
  · simp only [Option.some.injEq] at h
    subst h
    exact infoAt_sane z hz _
  · exact Option.noConfusion h

theorem possibleLocs_sane (z : DstZone) (hz : z.sane) (n : Int) :
    ∀ i ∈ z.possibleLocs n, i.sane := by
  intro i hi
  rw [DstZone.possibleLocs] at hi
  cases h1 : DstZone.possibleLocs.probe z n (-1440) with
  | none =>
      cases h2 : DstZone.possibleLocs.probe z n 1440 with
      | none =>
          simp only [h1, h2] at hi
          simp at hi
      | some b =>
          simp only [h1, h2] at hi
          simp only [List.mem_singleton] at hi
          subst hi
          exact probe_sane z hz n 1440 i h2
  | some a =>
      cases h2 : DstZone.possibleLocs.probe z n 1440 with
      | none =>
          simp only [h1, h2] at hi
          simp only [List.mem_singleton] at hi
          subst hi
          exact probe_sane z hz n (-1440) i h1
      | some b =>
          simp only [h1, h2] at hi
          split at hi
          · simp only [List.mem_singleton] at hi
            subst hi
            exact probe_sane z hz n (-1440) i h1
          · simp only [List.mem_cons, List.not_mem_nil, or_false] at hi
            rcases hi with hi | hi <;> subst hi
            · exact probe_sane z hz n (-1440) i h1
            · exact probe_sane z hz n 1440 i h2

theorem pickMax_mem :
    ∀ (l : List ZoneInfo) (acc : Option ZoneInfo) (r : ZoneInfo),
      l.foldl (fun acc i =>
        match acc with
        | Option.none => some i
        | some j => if i.offset > j.offset then some i else some j) acc = some r →
      acc = some r ∨ r ∈ l := by
  intro l
  induction l with
  | nil =>
      intro acc r h
      exact Or.inl h
  | cons i t ih =>
      intro acc r h
      rw [List.foldl_cons] at h
      rcases ih _ r h with hstep | hmem
      · cases acc with
        | none =>
            simp only [Option.some.injEq] at hstep
            exact Or.inr (by simp [hstep])
        | some j =>
            simp only at hstep
            split at hstep <;> simp only [Option.some.injEq] at hstep
            · exact Or.inr (by simp [hstep])
            · exact Or.inl (by rw [hstep])
      · exact Or.inr (List.mem_cons_of_mem i hmem)

theorem localizeF_spec (z : DstZone) (hz : z.sane) :
    ∀ (fuel : Nat) (n : Int) (a : Aware), z.localizeF fuel n = some a →
      a.wall = n ∧ -1440 ≤ a.offset ∧ a.offset ≤ 1440 ∧ a.tz = .dst z := by
  intro fuel
  induction fuel with
  | zero => intro n a h; exact Option.noConfusion h
  | succ m ih =>
      intro n a h
      rw [DstZone.localizeF] at h
      cases hpl : z.possibleLocs n with
      | nil =>
          rw [hpl] at h
          simp only [Option.map_eq_some'] at h
          obtain ⟨b, hb, hba⟩ := h
          obtain ⟨hw, ho1, ho2, htz⟩ := ih _ b hb
          subst hba
          exact ⟨by simp only; omega, ho1, ho2, htz⟩
      | cons i rest =>
          cases rest with
          | nil =>
              rw [hpl] at h
              simp only [Option.some.injEq] at h
              subst h
              have hs := possibleLocs_sane z hz n i (by rw [hpl]; simp)
              exact ⟨rfl, hs.1, hs.2, rfl⟩
          | cons j rest2 =>
              rw [hpl] at h
              simp only at h
              have hsub : ∀ x ∈ (i :: j :: rest2).filter (fun k => k.isDst == false),
                  x ∈ z.possibleLocs n := by
                intro x hx
                rw [hpl]
                exact List.mem_of_mem_filter hx
              split at h
              · rename_i b hb
                simp only [Option.some.injEq] at h
                subst h
                have hmem : b ∈ z.possibleLocs n := hsub b (by rw [hb]; simp)
                have hs := possibleLocs_sane z hz n b hmem
                exact ⟨rfl, hs.1, hs.2, rfl⟩
              · split at h
                · rename_i r hr
                  simp only [Option.some.injEq] at h
                  subst h
                  rcases pickMax_mem _ _ _ hr with habs | hmem
                  · exact Option.noConfusion habs
                  · have hmem2 : r ∈ z.possibleLocs n := by
                      revert hmem
                      split
                      · intro hmem
                        rw [hpl]
                        exact hmem
                      · intro hmem
                        exact hsub r hmem
                    have hs := possibleLocs_sane z hz n r hmem2
                    exact ⟨rfl, hs.1, hs.2, rfl⟩
                · exact Option.noConfusion h

theorem localize_spec (z : DstZone) (hz : z.sane) (n : Int) :
    (z.localize n).wall = n ∧ -1440 ≤ (z.localize n).offset ∧
      (z.localize n).offset ≤ 1440 ∧ (z.localize n).tz = .dst z := by
  rw [DstZone.localize]
  cases h : z.localizeF 4 n with
  | none =>
      have hs := infoAt_sane z hz n
      exact ⟨rfl, hs.1, hs.2, rfl⟩
  | some a =>
      simpa using localizeF_spec z hz 4 n a h

theorem dt_localize_spec (n : Int) (tz : Tz) (h : tz.sane) :
    (dt_localize n tz).wall = n ∧ -1440 ≤ (dt_localize n tz).offset ∧
      (dt_localize n tz).offset ≤ 1440 ∧ (dt_localize n tz).tz = tz := by
  cases tz with
  | fixed o => exact ⟨rfl, h.1, h.2, rfl⟩
  | dst z => exact localize_spec z h n

theorem astimezone_instant (a : Aware) (tz : Tz) :
    (a.astimezone tz).instant = a.instant := by
  cases tz with
  | fixed o => simp [Aware.astimezone, Aware.instant]
  | dst z => simp [Aware.astimezone, Aware.instant]

theorem astimezone_spec (a : Aware) (tz : Tz) (h : tz.sane) :
    -1440 ≤ (a.astimezone tz).offset ∧ (a.astimezone tz).offset ≤ 1440 ∧
      (a.astimezone tz).wall = a.instant + (a.astimezone tz).offset := by
  cases tz with
  | fixed o => exact ⟨h.1, h.2, rfl⟩
  | dst z =>
      have hs := infoAt_sane z h a.instant
      exact ⟨hs.1, hs.2, rfl⟩

theorem dt_add_days_naive (a : Aware) (d : Int) :
    1440 * (a.wall.fdiv 1440 + d) + a.wall.emod 1440 = a.wall + 1440 * d := by
  have h1 : a.wall.fdiv 1440 = a.wall / 1440 := Int.fdiv_eq_ediv _ (by omega)
  have h3 : a.wall.emod 1440 = a.wall % 1440 := rfl
  have h2 := Int.ediv_add_emod a.wall 1440
  rw [h1, h3]
  omega

theorem dt_add_days_spec (a : Aware) (ha : a.sane) :
    (dt_add_days a 7).tz = a.tz ∧ (dt_add_days a 7).sane ∧
      a.instant + 7200 ≤ (dt_add_days a 7).instant ∧
      (dt_add_days a 7).instant ≤ a.instant + 12960 := by
  obtain ⟨htz, ho1, ho2⟩ := ha
  rw [dt_add_days, dt_add_days_naive]
  obtain ⟨hw, hl1, hl2, hltz⟩ := dt_localize_spec (a.wall + 1440 * 7) a.tz htz
  refine ⟨hltz, ?_, ?_, ?_⟩
  · rw [Aware.sane, hltz]
    exact ⟨htz, hl1, hl2⟩
  · simp only [Aware.instant]
    rw [hw]
    omega
  · simp only [Aware.instant]
    rw [hw]
    omega

/-- The home-local week-start wall-clock (naive minutes) that
`get_datetime` derives from an aware reference: the home-local Monday
00:00 of the reference's week. -/
def weekStartNaive (home : Tz) (w : Aware) : Int :=
  1440 * ((w.astimezone home).wall.fdiv 1440 - ((w.astimezone home).wall.fdiv 1440).emod 7)

/-- The naive wall-clock `get_datetime` localizes for a timepoint. -/
def tpNaive (home : Tz) (tp : Timepoint) (w : Aware) : Int :=
  1440 * ((dt_localize (weekStartNaive home w) home).wall.fdiv 1440 + tp.td_days)
    + 60 * (tp.td_seconds.fdiv 3600) + (tp.td_seconds.fdiv 60).emod 60

theorem get_datetime_aware_instant (tp : Timepoint) (home : Tz) (w : Aware)
    (flag : Bool) :
    (tp.get_datetime_aware home w flag).instant
      = (dt_localize (tpNaive home tp w) home).instant := by
  cases flag with
  | false =>
      show ((dt_localize (tpNaive home tp w) home).astimezone w.tz).instant = _
      exact astimezone_instant _ _
  | true => rfl

theorem tpNaive_eq (home : Tz) (hs : home.sane) (tp : Timepoint) (w : Aware) :
    tpNaive home tp w = weekStartNaive home w + 1440 * tp.td_days
      + (60 * (tp.td_seconds.fdiv 3600) + (tp.td_seconds.fdiv 60).emod 60) := by
  rw [tpNaive]
  have hw : (dt_localize (weekStartNaive home w) home).wall = weekStartNaive home w :=
    (dt_localize_spec _ _ hs).1
  rw [hw]
  have hk : (weekStartNaive home w).fdiv 1440
      = (w.astimezone home).wall.fdiv 1440
        - ((w.astimezone home).wall.fdiv 1440).emod 7 := by
    rw [weekStartNaive, Int.fdiv_eq_ediv _ (by omega),
      Int.mul_ediv_cancel_left _ (by omega)]
  rw [hk, weekStartNaive]
  ring

theorem weekStart_mul (home : Tz) (w : Aware) :
    ∃ k, weekStartNaive home w = 10080 * k := by
  rw [weekStartNaive]
  refine ⟨(w.astimezone home).wall.fdiv 1440 / 7, ?_⟩
  have h := Int.ediv_add_emod ((w.astimezone home).wall.fdiv 1440) 7
  have he : ((w.astimezone home).wall.fdiv 1440).emod 7
      = (w.astimezone home).wall.fdiv 1440 % 7 := rfl
  rw [he]
  omega

theorem weekStart_mono (home : Tz) (hs : home.sane) (w1 w2 : Aware)
    (h : w1.instant ≤ w2.instant - 2880) :
    weekStartNaive home w1 ≤ weekStartNaive home w2 := by
  obtain ⟨ho1a, ho1b, hw1⟩ := astimezone_spec w1 home hs
  obtain ⟨ho2a, ho2b, hw2⟩ := astimezone_spec w2 home hs
  have hwall : (w1.astimezone home).wall ≤ (w2.astimezone home).wall := by omega
  rw [weekStartNaive, weekStartNaive]
  have hd : (w1.astimezone home).wall.fdiv 1440
      ≤ (w2.astimezone home).wall.fdiv 1440 := by
    rw [Int.fdiv_eq_ediv _ (by omega), Int.fdiv_eq_ediv _ (by omega)]
    exact Int.ediv_le_ediv (by omega) hwall
  have h1 := Int.ediv_add_emod ((w1.astimezone home).wall.fdiv 1440) 7
  have h2 := Int.ediv_add_emod ((w2.astimezone home).wall.fdiv 1440) 7
  have hq : (w1.astimezone home).wall.fdiv 1440 / 7
      ≤ (w2.astimezone home).wall.fdiv 1440 / 7 := Int.ediv_le_ediv (by omega) hd
  have e1 : ((w1.astimezone home).wall.fdiv 1440).emod 7
      = (w1.astimezone home).wall.fdiv 1440 % 7 := rfl
  have e2 : ((w2.astimezone home).wall.fdiv 1440).emod 7
      = (w2.astimezone home).wall.fdiv 1440 % 7 := rfl
  rw [e1, e2]
  omega

theorem weekStart_step (home : Tz) (hs : home.sane) (w : Aware) (hw : w.sane) :
    weekStartNaive home w ≤ weekStartNaive home (dt_add_days w 7) :=
  weekStart_mono home hs w _ (by
    have := (dt_add_days_spec w hw).2.2.1
    omega)

theorem resInst_step (home : Tz) (hs : home.sane) (tp : Timepoint) (w : Aware)
    (hw : w.sane) :
    (dt_localize (tpNaive home tp w) home).instant
      ≤ (dt_localize (tpNaive home tp (dt_add_days w 7)) home).instant := by
  have hstep := weekStart_step home hs w hw
  obtain ⟨k1, he1⟩ := weekStart_mul home w
  obtain ⟨k2, he2⟩ := weekStart_mul home (dt_add_days w 7)
  have heq1 := tpNaive_eq home hs tp w
  have heq2 := tpNaive_eq home hs tp (dt_add_days w 7)
  rcases eq_or_lt_of_le hstep with heqw | hlt
  · have hsame : tpNaive home tp w = tpNaive home tp (dt_add_days w 7) := by
      rw [heq1, heq2, heqw]
    rw [hsame]
  · have hge : weekStartNaive home w + 10080 ≤ weekStartNaive home (dt_add_days w 7) := by
      rw [he1, he2] at hlt ⊢
      omega
    have hn : tpNaive home tp w + 10080 ≤ tpNaive home tp (dt_add_days w 7) := by
      rw [heq1, heq2]
      omega
    obtain ⟨hwl1, hb1, hb2, -⟩ := dt_localize_spec (tpNaive home tp w) home hs
    obtain ⟨hwl2, hb3, hb4, -⟩ := dt_localize_spec (tpNaive home tp (dt_add_days w 7)) home hs
    simp only [Aware.instant]
    rw [hwl1, hwl2]
    omega

theorem periodScan_out_sub (f t : Aware) (cmax : Option Nat) :
    ∀ (es : List (Aware × Timepoint)) (count : Nat),
      ∀ e ∈ (periodScan f t cmax es count).1, e ∈ es := by
  intro es
  induction es with
  | nil =>
      intro count e he
      simp [periodScan] at he
  | cons x es ih =>
      intro count e he
      by_cases hret : some count = cmax ∨ x.1.instant > t.instant
      · rw [periodScan, if_pos hret] at he
        simp at he
      · by_cases hskip : x.1.instant < f.instant
        · rw [periodScan, if_neg hret, if_pos hskip] at he
          exact List.mem_cons_of_mem x (ih count e he)
        · have hred : (periodScan f t cmax (x :: es) count).1
              = x :: (periodScan f t cmax es (count + 1)).1 := by
            rw [periodScan, if_neg hret, if_neg hskip]
          rw [hred] at he
          rcases List.mem_cons.mp he with he | he
          · exact List.mem_cons.mpr (Or.inl he)
          · exact List.mem_cons_of_mem x (ih (count + 1) e he)

theorem periodScan_empty_out (f t : Aware) (cmax : Option Nat) :
    ∀ (es : List (Aware × Timepoint)) (count : Nat),
      (periodScan f t cmax es count).1 = [] →
      (periodScan f t cmax es count).2.2 = false →
      ∀ e ∈ es, e.1.instant < f.instant := by
  intro es
  induction es with
  | nil =>
      intro count h1 h2 e he
      simp at he
  | cons x es ih =>
      intro count h1 h2 e he
      by_cases hret : some count = cmax ∨ x.1.instant > t.instant
      · have hred : (periodScan f t cmax (x :: es) count).2.2 = true := by
          rw [periodScan, if_pos hret]
        rw [hred] at h2
        exact Bool.noConfusion h2
      · by_cases hskip : x.1.instant < f.instant
        · have hr1 : (periodScan f t cmax (x :: es) count).1
              = (periodScan f t cmax es count).1 := by
            rw [periodScan, if_neg hret, if_pos hskip]
          have hr2 : (periodScan f t cmax (x :: es) count).2.2
              = (periodScan f t cmax es count).2.2 := by
            rw [periodScan, if_neg hret, if_pos hskip]
          rw [hr1] at h1
          rw [hr2] at h2
          rcases List.mem_cons.mp he with he | he
          · rw [he]
            exact hskip
          · exact ih count h1 h2 e he
        · have hred : (periodScan f t cmax (x :: es) count).1
              = x :: (periodScan f t cmax es (count + 1)).1 := by
            rw [periodScan, if_neg hret, if_neg hskip]
          rw [hred] at h1
          exact List.noConfusion h1

theorem get_week_ok_inv (tt : Timetable) (w : Aware) (flag : Bool)
    (l : List (Aware × Timepoint)) (h : tt.get_week (.aware w) flag = .ok l) :
    ∃ ks, tt.kept = some ks ∧
      l = (ks.map (fun tp => (tp.get_datetime_aware tt.tz w flag, tp))).mergeSort entryLe := by
  rw [get_week_aware_eq] at h
  cases hk : tt.kept with
  | none =>
      rw [hk] at h
      exact Except.noConfusion h
  | some ks =>
      rw [hk] at h
      simp only [Except.ok.injEq] at h
      exact ⟨ks, rfl, h.symm⟩

theorem get_period_aux_succ_eq (tt : Timetable) (f t : Aware) (cmax : Option Nat)
    (flag : Bool) (fuel : Nat) (week : Aware) (count : Nat) :
    tt.get_period_aux f t cmax flag (fuel + 1) week count =
      match tt.get_week (.aware week) flag with
      | .error e => .error e
      | .ok entries =>
          if (periodScan f t cmax entries count).2.2 = true then
            .ok ((periodScan f t cmax entries count).1, true)
          else if (periodScan f t cmax entries count).2.1 = 0 then
            .ok ((periodScan f t cmax entries count).1, true)
          else
            match tt.get_period_aux f t cmax flag fuel (dt_add_days week 7)
                (periodScan f t cmax entries count).2.1 with
            | .error e => .error e
            | .ok (rest, done) =>
                .ok ((periodScan f t cmax entries count).1 ++ rest, done) := by
  rw [Timetable.get_period_aux]

/-- The reachability invariant of the `get_period` walk: a positive
running count certifies that the current week still resolves an entry at
or after `dt_from`, because an earlier week emitted one and resolved
entries never move backwards from one week to the next. -/
def WalkInv (tt : Timetable) (flag : Bool) (dtf week : Aware) (count : Nat) : Prop :=
  count ≠ 0 → ∃ l, tt.get_week (.aware week) flag = .ok l ∧
    ∃ e ∈ l, dtf.instant ≤ e.1.instant

/-- C5: within `Timetable.get_period`, a week contributing zero emitted
entries terminates the walk at that week — for any running count, not
just a zero one, in any state satisfying the reachability invariant, one
unit of fuel already yields the final outcome; the invariant holds at the
sane entry state and is preserved week to week (given IANA-sane zones,
whose offsets stay within a day); and when some week resolves no entries
the generated sequence is finite: every invocation returns the empty
output at its very first week. -/
theorem get_period_zero_emission_week_stops
    (tt : Timetable) (dtf dtt : Aware) (cmax : Option Nat) (flag : Bool)
    (hhome : tt.tz.sane) (hfrom : dtf.sane) :
    (∀ (week : Aware) (count : Nat) (entries : List (Aware × Timepoint)) (fuel : Nat),
       WalkInv tt flag dtf week count →
       tt.get_week (.aware week) flag = .ok entries →
       (periodScan dtf dtt cmax entries count).1 = [] →
       tt.get_period_aux dtf dtt cmax flag (fuel + 1) week count
         = tt.get_period_aux dtf dtt cmax flag 1 week count) ∧
    (dtf.sane ∧ WalkInv tt flag dtf dtf 0) ∧
    (∀ (week : Aware) (count : Nat) (entries : List (Aware × Timepoint)),
       week.sane → WalkInv tt flag dtf week count →
       tt.get_week (.aware week) flag = .ok entries →
       (dt_add_days week 7).sane ∧
       WalkInv tt flag dtf (dt_add_days week 7)
         (periodScan dtf dtt cmax entries count).2.1) ∧
    (∀ (w0 : Aware) (fuel : Nat), tt.get_week (.aware w0) flag = .ok [] →
       tt.get_period (.aware dtf) (.aware dtt) cmax flag (fuel + 1) = .ok ([], true)) := by
  refine ⟨?_, ⟨hfrom, fun h => absurd rfl h⟩, ?_, ?_⟩
  · intro week count entries fuel hinv hgw hout
    rw [get_period_aux_succ_eq, get_period_aux_succ_eq, hgw]
    simp only
    by_cases hret : (periodScan dtf dtt cmax entries count).2.2 = true
    · rw [if_pos hret, if_pos hret]
    · rw [if_neg hret, if_neg hret]
      by_cases hzero : (periodScan dtf dtt cmax entries count).2.1 = 0
      · rw [if_pos hzero, if_pos hzero]
      · exfalso
        have hs2 := (periodScan_spec dtf dtt cmax entries count).2.1
        rw [hout] at hs2
        simp only [List.length_nil, Nat.add_zero] at hs2
        have hcount : count ≠ 0 := fun hc => hzero (by rw [hs2, hc])
        obtain ⟨l, hl, e, hel, hinst⟩ := hinv hcount
        rw [hgw] at hl
        simp only [Except.ok.injEq] at hl
        subst hl
        have hall := periodScan_empty_out dtf dtt cmax entries count hout
          (by simpa using hret)
        exact absurd hinst (not_le.mpr (hall e hel))
  · intro week count entries hwsane hinv hgw
    obtain ⟨htznext, hsn, -, -⟩ := dt_add_days_spec week hwsane
    refine ⟨hsn, ?_⟩
    intro hc2
    obtain ⟨ks, hk, hl⟩ := get_week_ok_inv tt week flag entries hgw
    have hnext : tt.get_week (.aware (dt_add_days week 7)) flag
        = .ok ((ks.map (fun tp =>
            (tp.get_datetime_aware tt.tz (dt_add_days week 7) flag, tp))).mergeSort entryLe) := by
      rw [get_week_aware_eq, hk]
    have hfind : ∃ tp ∈ ks,
        dtf.instant ≤ (tp.get_datetime_aware tt.tz week flag).instant := by
      by_cases hcount : count = 0
      · subst hcount
        have hs2 := (periodScan_spec dtf dtt cmax entries 0).2.1
        simp only [Nat.zero_add] at hs2
        have hlen : (periodScan dtf dtt cmax entries 0).1 ≠ [] := by
          intro hnil
          exact hc2 (by rw [hs2, hnil]; rfl)
        obtain ⟨e, he⟩ := List.exists_mem_of_ne_nil _ hlen
        have hin := (periodScan_spec dtf dtt cmax entries 0).1 e he
        have hes : e ∈ entries := periodScan_out_sub dtf dtt cmax entries 0 e he
        rw [hl] at hes
        have hes2 : e ∈ ks.map (fun tp => (tp.get_datetime_aware tt.tz week flag, tp)) :=
          (List.mergeSort_perm _ _).mem_iff.mp hes
        obtain ⟨tp, htp, he2⟩ := List.mem_map.mp hes2
        refine ⟨tp, htp, ?_⟩
        rw [← he2] at hin
        exact hin.1
      · obtain ⟨l2, hl2, e, hel, hinst⟩ := hinv hcount
        rw [hgw] at hl2
        simp only [Except.ok.injEq] at hl2
        subst hl2
        rw [hl] at hel
        have hes2 : e ∈ ks.map (fun tp => (tp.get_datetime_aware tt.tz week flag, tp)) :=
          (List.mergeSort_perm _ _).mem_iff.mp hel
        obtain ⟨tp, htp, he2⟩ := List.mem_map.mp hes2
        refine ⟨tp, htp, ?_⟩
        rw [← he2] at hinst
        exact hinst
    obtain ⟨tp, htp, htpinst⟩ := hfind
    refine ⟨_, hnext, (tp.get_datetime_aware tt.tz (dt_add_days week 7) flag, tp), ?_, ?_⟩
    · exact (List.mergeSort_perm _ _).mem_iff.mpr (List.mem_map_of_mem _ htp)
    · calc dtf.instant ≤ (tp.get_datetime_aware tt.tz week flag).instant := htpinst
        _ = (dt_localize (tpNaive tt.tz tp week) tt.tz).instant :=
            get_datetime_aware_instant tp tt.tz week flag
        _ ≤ (dt_localize (tpNaive tt.tz tp (dt_add_days week 7)) tt.tz).instant :=
            resInst_step tt.tz hhome tp week hwsane
        _ = (tp.get_datetime_aware tt.tz (dt_add_days week 7) flag).instant :=
            (get_datetime_aware_instant tp tt.tz (dt_add_days week 7) flag).symm
  · intro w0 fuel hgw0
    obtain ⟨ks, hk, hl⟩ := get_week_ok_inv tt w0 flag [] hgw0
    have hks : ks = [] := by
      have hlen := congrArg List.length hl
      simp only [List.length_nil, List.length_mergeSort, List.length_map] at hlen
      exact List.length_eq_zero.mp hlen.symm
    have hgwf : tt.get_week (.aware dtf) flag = .ok [] := by
      rw [get_week_aware_eq, hk, hks]
      simp
    rw [Timetable.get_period, get_period_aux_succ_eq, hgwf]
    simp only
    have hscan : periodScan dtf dtt cmax [] 0 = ([], 0, false) := rfl
    rw [hscan]
    simp

unseal List.merge List.mergeSort in
/-- Witness for `get_period_zero_emission_week_stops`: a single-timepoint
"therm" timetable drops its only entry every week (first and last entry
coincide), so every week resolves to no entries and the walk returns the
empty output at its first week. -/
theorem get_period_zero_emission_week_stops_witness :
    Timetable.get_period ⟨some "therm", [⟨1, 0⟩], .fixed 0⟩ (.aware ⟨0, 0, .fixed 0⟩)
      (.aware ⟨99999, 0, .fixed 0⟩) Option.none false 5 = .ok ([], true) :=
  (get_period_zero_emission_week_stops ⟨some "therm", [⟨1, 0⟩], .fixed 0⟩
      ⟨0, 0, .fixed 0⟩ ⟨99999, 0, .fixed 0⟩ Option.none false
      ⟨by decide, by decide⟩ ⟨⟨by decide, by decide⟩, by decide, by decide⟩).2.2.2
    ⟨0, 0, .fixed 0⟩ 4 rfl

end Netatmo
